import Mathlib

/-!
# Verification of the TypeSafeEmitter dispatch engine

Shallow embedding of the publish/subscribe dispatcher implemented in
`src/index.ts` (class `TypeSafeEmitter`) together with its error classes from
`src/errors.ts`.  JavaScript strings are modelled as lists of characters
(`Str`); the JavaScript string operations used by the source
(`split('*')`, `startsWith`, `endsWith`, `includes`, `trim`, `length`) are
defined below with their ECMAScript semantics.  Handlers are opaque values
identified by natural numbers in the pure dispatch model; a second,
operational model gives handlers a small effect language so that re-entrant
emission and the `once` wrapper's self-removal can be analysed.
-/

namespace TSE

/-- JavaScript strings, modelled as sequences of characters. -/
abbrev Str := List Char

/-- ECMAScript `s.split(sep)` for a one-character separator `sep`:
splits `s` at every occurrence of `sep`; the result always has
`(number of occurrences of sep) + 1` fragments, possibly empty. -/
def jsSplitChar (sep : Char) : Str → List Str
  | [] => [[]]
  | c :: rest =>
    if c = sep then [] :: jsSplitChar sep rest
    else
      match jsSplitChar sep rest with
      | [] => [[c]]
      | h :: t => (c :: h) :: t

/-- ECMAScript `s.startsWith(p)`. -/
def jsStartsWith (s p : Str) : Bool := p.isPrefixOf s

/-- ECMAScript `s.endsWith(p)`. -/
def jsEndsWith (s p : Str) : Bool := p.isSuffixOf s

/-- ECMAScript `s.includes(sub)`: `sub` occurs contiguously in `s`
(the empty string is included in every string). -/
def jsIncludes (s sub : Str) : Bool :=
  sub.isPrefixOf s ||
    match s with
    | [] => false
    | _ :: t => jsIncludes t sub

/-- ECMAScript `s.trim()`: strip leading and trailing whitespace. -/
def jsTrim (s : Str) : Str :=
  ((s.dropWhile Char.isWhitespace).reverse.dropWhile Char.isWhitespace).reverse

/-- Decidable equality for `Except`, so that results of fallible operations
can be evaluated on concrete inputs. -/
instance {ε α : Type} [DecidableEq ε] [DecidableEq α] : DecidableEq (Except ε α) := fun a b =>
  match a, b with
  | .error e, .error f =>
    if h : e = f then isTrue (by subst h; rfl) else isFalse (by intro hc; cases hc; exact h rfl)
  | .error _, .ok _ => isFalse (by intro hc; cases hc)
  | .ok _, .error _ => isFalse (by intro hc; cases hc)
  | .ok x, .ok y =>
    if h : x = y then isTrue (by subst h; rfl) else isFalse (by intro hc; cases hc; exact h rfl)

/-- Errors thrown by the emitter (`src/errors.ts`): `InvalidEventNameError`
carries its message, `NoListenersError` carries the event name. -/
inductive EmitterError where
  | invalidEventName (msg : Str)
  | noListeners (eventName : Str)
deriving DecidableEq, Repr

/-- Message of the `InvalidEventNameError` raised for empty names. -/
def emptyMsg : Str := "Event name cannot be an empty string.".toList

/-- Message of the `InvalidEventNameError` raised when a wildcard-containing
name is passed to an operation that forbids wildcards. -/
def wildcardMsg (n : Str) : Str :=
  "Wildcard pattern \"".toList ++ n ++ "\" is not allowed for this operation.".toList

/-- `TypeSafeEmitter.validateEventName` (src/index.ts lines 49-57):
throws on empty-after-trim names, and, when `allowWildcards` is false,
additionally on names containing `*`.  The thrown error is returned as
`some`. -/
def validateEventName (eventName : Str) (allowWildcards : Bool) : Option EmitterError :=
  if jsTrim eventName = [] then
    some (.invalidEventName emptyMsg)
  else if !allowWildcards && eventName.contains '*' then
    some (.invalidEventName (wildcardMsg eventName))
  else
    none

/-- The pattern matching performed per wildcard-registry entry inside
`emit` (src/index.ts lines 171-194) and repeated verbatim inside
`emitAsync` (lines 252-271): the pattern is split on `*` and only the
one-fragment and two-fragment cases are handled; any other split leaves
`matches` at `false`. -/
def patternMatches (pat eventName : Str) : Bool :=
  let parts := jsSplitChar '*' pat
  if parts.length = 1 then
    jsStartsWith eventName (parts.getD 0 [])
  else if parts.length = 2 then
    if jsStartsWith pat ['*'] && jsEndsWith pat ['*'] then
      if parts.getD 1 [] = [] then true
      else jsIncludes eventName (parts.getD 1 [])
    else if jsStartsWith pat ['*'] then
      jsEndsWith eventName (parts.getD 1 [])
    else if jsEndsWith pat ['*'] then
      jsStartsWith eventName (parts.getD 0 [])
    else
      jsStartsWith eventName (parts.getD 0 []) && jsEndsWith eventName (parts.getD 1 []) &&
        decide ((parts.getD 0 []).length + (parts.getD 1 []).length ≤ eventName.length)
  else false

/-! ## Registries

JavaScript `Set` objects are modelled as insertion-ordered duplicate-free
lists; the `handlers` object and the `wildcardHandlers` `Map` are modelled
as insertion-ordered association lists. -/

/-- `Set.add`: append unless already present (reference identity is
modelled by equality of the representing values). -/
def setAdd {α : Type} [BEq α] (l : List α) (h : α) : List α :=
  if l.contains h then l else l ++ [h]

/-- Look up the handler set registered under key `k` (`this.handlers[k]` /
`this.wildcardHandlers.get(k)`). -/
def regLookup {α : Type} (reg : List (Str × List α)) (k : Str) : Option (List α) :=
  (reg.find? (fun e => e.1 == k)).map Prod.snd

/-- Add handler `h` under key `k`, creating the set if absent
(src/index.ts lines 77-94). -/
def regAdd {α : Type} [BEq α] (reg : List (Str × List α)) (k : Str) (h : α) :
    List (Str × List α) :=
  if (reg.find? (fun e => e.1 == k)).isSome then
    reg.map (fun e => if e.1 == k then (e.1, setAdd e.2 h) else e)
  else reg ++ [(k, [h])]

/-- Remove handler `h` from the set under key `k`, deleting the entry when
the set becomes empty (src/index.ts lines 118-136). -/
def regRemove {α : Type} [BEq α] (reg : List (Str × List α)) (k : Str) (h : α) :
    List (Str × List α) :=
  reg.filterMap (fun e =>
    if e.1 == k then
      let hs := e.2.erase h
      if hs.isEmpty then none else some (e.1, hs)
    else some e)

/-! ## Pure dispatch model

Handlers are opaque identities (`Nat`).  This model covers the registry
bookkeeping and the matching/validation logic of `on`, `off`, `clear`,
`emit` and `emitAsync`. -/

/-- The dispatcher state: exact registry, universal (`*`) registry, pattern
registry, and the `throwOnNoListeners` option. -/
structure EmitterState where
  handlers : List (Str × List Nat)
  starHandlers : List Nat
  wildcardHandlers : List (Str × List Nat)
  throwOnNoListeners : Bool
deriving DecidableEq, Repr

/-- The state produced by the constructor. -/
def initState (throwOnNoListeners : Bool) : EmitterState :=
  ⟨[], [], [], throwOnNoListeners⟩

/-- `TypeSafeEmitter.on` (src/index.ts lines 66-99): validate permissively,
then route `*` to the universal registry, other `*`-containing strings to
the pattern registry, and everything else to the exact registry. -/
def on' (st : EmitterState) (eventName : Str) (h : Nat) :
    Except EmitterError EmitterState :=
  match validateEventName eventName true with
  | some e => .error e
  | none =>
    if eventName = ['*'] then
      .ok { st with starHandlers := setAdd st.starHandlers h }
    else if eventName.contains '*' then
      .ok { st with wildcardHandlers := regAdd st.wildcardHandlers eventName h }
    else
      .ok { st with handlers := regAdd st.handlers eventName h }

/-- `TypeSafeEmitter.off` (src/index.ts lines 107-137). -/
def off (st : EmitterState) (eventName : Str) (h : Nat) :
    Except EmitterError EmitterState :=
  match validateEventName eventName true with
  | some e => .error e
  | none =>
    if eventName = ['*'] then
      .ok { st with starHandlers := st.starHandlers.erase h }
    else if eventName.contains '*' then
      .ok { st with wildcardHandlers := regRemove st.wildcardHandlers eventName h }
    else
      .ok { st with handlers := regRemove st.handlers eventName h }

/-- `TypeSafeEmitter.clear` (src/index.ts lines 346-364). -/
def clear (st : EmitterState) (eventName : Option Str) :
    Except EmitterError EmitterState :=
  match eventName with
  | none => .ok { st with handlers := [], starHandlers := [], wildcardHandlers := [] }
  | some n =>
    match validateEventName n true with
    | some e => .error e
    | none =>
      if n = ['*'] then .ok { st with starHandlers := [] }
      else if n.contains '*' then
        .ok { st with wildcardHandlers := st.wildcardHandlers.filter (fun e => !(e.1 == n)) }
      else
        .ok { st with handlers := st.handlers.filter (fun e => !(e.1 == n)) }

/-- The `listenersFound` bookkeeping of `emit`/`emitAsync`: true when the
exact set for the name is non-empty, or the universal set is non-empty, or
some pattern entry matches the name with a non-empty set. -/
def matchedAny (st : EmitterState) (name : Str) : Bool :=
  (match regLookup st.handlers name with
   | some hs => !hs.isEmpty
   | none => false) ||
  !st.starHandlers.isEmpty ||
  st.wildcardHandlers.any (fun e => patternMatches e.1 name && !e.2.isEmpty)

/-- A recorded handler invocation: exact handlers receive the payload,
universal and pattern handlers receive `(eventName, payload)`; pattern
invocations additionally record which pattern entry triggered them. -/
inductive Call where
  | exact (h : Nat) (data : Nat)
  | star (h : Nat) (name : Str) (data : Nat)
  | pattern (pat : Str) (h : Nat) (name : Str) (data : Nat)
deriving DecidableEq, Repr

/-- `TypeSafeEmitter.emit` (src/index.ts lines 146-204): strict validation,
then the exact pass, the universal pass and the pattern pass in order; if no
pass found listeners and `throwOnNoListeners` is set, `NoListenersError` is
thrown.  The result records the invocations performed. -/
def emit (st : EmitterState) (name : Str) (payload : Nat) :
    Except EmitterError (List Call) :=
  match validateEventName name false with
  | some e => .error e
  | none =>
    let exactCalls : List Call :=
      match regLookup st.handlers name with
      | some hs => if !hs.isEmpty then hs.map (fun h => .exact h payload) else []
      | none => []
    let starCalls : List Call :=
      if !st.starHandlers.isEmpty then
        st.starHandlers.map (fun h => .star h name payload)
      else []
    let wcCalls : List Call :=
      (st.wildcardHandlers.map (fun e =>
        if patternMatches e.1 name && !e.2.isEmpty then
          e.2.map (fun h => Call.pattern e.1 h name payload)
        else [])).flatten
    if !matchedAny st name && st.throwOnNoListeners then
      .error (.noListeners name)
    else
      .ok (exactCalls ++ starCalls ++ wcCalls)

/-! ## Asynchronous dispatch model

`emitAsync` (src/index.ts lines 213-292) wraps each handler invocation in a
`try`/`catch`, collects the promises produced, and returns
`Promise.all(promises)`.  A handler invocation's observable behaviour is
abstracted as `HOutcome`; a promise is abstracted by the time at which it
settles and an optional failure reason (`PendUnit`).  `promiseAll` models
ECMAScript `Promise.all` over this abstraction: it resolves at the latest
settlement time when every input resolves, and it rejects with the reason of
the earliest-rejecting input at that input's settlement time (input promises
are not cancelled; ties are broken by list position). -/

/-- Behaviour of one handler invocation: return synchronously, throw
synchronously, or return a promise settling at `settleAt` with optional
failure `fail`. -/
inductive HOutcome where
  | syncOk
  | syncThrow (e : Nat)
  | async (settleAt : Nat) (fail : Option Nat)
deriving DecidableEq, Repr

/-- A pending unit of work: when it settles and whether it fails. -/
structure PendUnit where
  settleAt : Nat
  fail : Option Nat
deriving DecidableEq, Repr

/-- The `try`/`catch` wrapper around each handler invocation in `emitAsync`
(src/index.ts lines 223-231): a synchronous throw is pushed as
`Promise.reject(err)` (an immediately-settled failed unit), a returned
promise is pushed as-is, and a plain synchronous return pushes nothing. -/
def wrapInvoke (o : HOutcome) : Option PendUnit :=
  match o with
  | .syncOk => none
  | .syncThrow e => some ⟨0, some e⟩
  | .async t f => some ⟨t, f⟩

/-- The earliest-settling failing unit (first in the list on ties), i.e.
the unit whose rejection `Promise.all` adopts. -/
def earliestFail : List PendUnit → Option PendUnit
  | [] => none
  | u :: rest =>
    match earliestFail rest with
    | none => if u.fail.isSome then some u else none
    | some v => if u.fail.isSome && decide (u.settleAt ≤ v.settleAt) then some u else some v

/-- Latest settlement time of a list of units (0 when empty). -/
def maxSettle (us : List PendUnit) : Nat :=
  us.foldr (fun u m => max u.settleAt m) 0

/-- ECMAScript `Promise.all` over the timing abstraction. -/
def promiseAll (us : List PendUnit) : PendUnit :=
  match earliestFail us with
  | some u => u
  | none => ⟨maxSettle us, none⟩

/-- Failure of the completion signal returned by `emitAsync`: either one of
the emitter's own errors or a handler failure reason. -/
inductive AsyncFailure where
  | emitterErr (e : EmitterError)
  | handlerErr (e : Nat)
deriving DecidableEq, Repr

/-- The settled completion signal returned by `emitAsync`. -/
structure Settled where
  settleAt : Nat
  failure : Option AsyncFailure
deriving DecidableEq, Repr

/-- The units of work collected by `emitAsync`'s three passes, in pass
order, given the behaviour `beh` of each handler identity. -/
def collectUnits (st : EmitterState) (beh : Nat → HOutcome) (name : Str) :
    List PendUnit :=
  let exactUnits : List PendUnit :=
    match regLookup st.handlers name with
    | some hs => if !hs.isEmpty then hs.filterMap (fun h => wrapInvoke (beh h)) else []
    | none => []
  let starUnits : List PendUnit :=
    if !st.starHandlers.isEmpty then
      st.starHandlers.filterMap (fun h => wrapInvoke (beh h))
    else []
  let wcUnits : List PendUnit :=
    (st.wildcardHandlers.map (fun e =>
      if patternMatches e.1 name && !e.2.isEmpty then
        e.2.filterMap (fun h => wrapInvoke (beh h))
      else [])).flatten
  exactUnits ++ starUnits ++ wcUnits

/-- `TypeSafeEmitter.emitAsync` (src/index.ts lines 213-292).  Because the
method is `async`, validation errors and the `NoListenersError` are
delivered as failures of the returned completion signal, never as
synchronous throws; otherwise the result is `Promise.all` over the collected
units. -/
def emitAsync (st : EmitterState) (beh : Nat → HOutcome) (name : Str) : Settled :=
  match validateEventName name false with
  | some e => ⟨0, some (.emitterErr e)⟩
  | none =>
    if !matchedAny st name && st.throwOnNoListeners then
      ⟨0, some (.emitterErr (.noListeners name))⟩
    else
      let r := promiseAll (collectUnits st beh name)
      ⟨r.settleAt, r.fail.map .handlerErr⟩

/-- Whether handler identity `hnd` is matched by an emission of `name`
(i.e. belongs to one of the sets the three passes iterate over). -/
def handlerMatched (st : EmitterState) (name : Str) (hnd : Nat) : Bool :=
  ((regLookup st.handlers name).getD []).contains hnd ||
  st.starHandlers.contains hnd ||
  st.wildcardHandlers.any (fun e =>
    patternMatches e.1 name && !e.2.isEmpty && e.2.contains hnd)

/-! ## Operational model with effectful handlers

To analyse the `once` wrapper (src/index.ts lines 303-339) and the
registry invariant under dispatch, handlers are given a small effect
language: a handler body is a sequence of re-entrant `emit` calls (the only
registry-affecting effect the analysed claims concern; the wrapper installed
by `once` additionally unsubscribes itself before running the user
handler).  `Set.forEach`/`Map.forEach` iteration under concurrent removal is
modelled by repeatedly visiting the first not-yet-visited element of the
live collection, which matches ECMAScript iteration order: elements removed
before being visited are skipped.  Execution is fuelled; running out of fuel
stops execution at an arbitrary intermediate state (which also covers
executions aborted by a propagating exception). -/

/-- Handler bodies: finished, or re-entrantly emit and continue. -/
inductive HProg where
  | ret
  | emitSeq (name : Str) (payload : Nat) (rest : HProg)
deriving DecidableEq, Repr

/-- A registered handler value: a plain handler, or the self-removing
wrapper installed by `once`, which remembers the subscription name it must
unsubscribe from. -/
inductive EHandler where
  | plain (id : Nat) (prog : HProg)
  | onceWrap (id : Nat) (subName : Str) (prog : HProg)
deriving DecidableEq, Repr

/-- The identity of the user handler wrapped inside a handler value. -/
def EHandler.idOf : EHandler → Nat
  | .plain i _ => i
  | .onceWrap i _ _ => i

/-- Dispatcher state for the operational model, with an invocation log
recording `(handler id, event name, payload)` for every user-handler
invocation. -/
structure MState where
  handlers : List (Str × List EHandler)
  starHandlers : List EHandler
  wildcardHandlers : List (Str × List EHandler)
  throwOnNoListeners : Bool
  log : List (Nat × Str × Nat)
deriving DecidableEq, Repr

/-- Constructor state of the operational model. -/
def initM (throwOnNoListeners : Bool) : MState :=
  ⟨[], [], [], throwOnNoListeners, []⟩

/-- `TypeSafeEmitter.on` over the operational state (an invalid name throws
before any mutation, so it leaves the state unchanged). -/
def onState (st : MState) (name : Str) (h : EHandler) : MState :=
  match validateEventName name true with
  | some _ => st
  | none =>
    if name = ['*'] then { st with starHandlers := setAdd st.starHandlers h }
    else if name.contains '*' then
      { st with wildcardHandlers := regAdd st.wildcardHandlers name h }
    else { st with handlers := regAdd st.handlers name h }

/-- `TypeSafeEmitter.off` over the operational state. -/
def offState (st : MState) (name : Str) (h : EHandler) : MState :=
  match validateEventName name true with
  | some _ => st
  | none =>
    if name = ['*'] then { st with starHandlers := st.starHandlers.erase h }
    else if name.contains '*' then
      { st with wildcardHandlers := regRemove st.wildcardHandlers name h }
    else { st with handlers := regRemove st.handlers name h }

/-- `TypeSafeEmitter.clear` over the operational state. -/
def clearState (st : MState) (eventName : Option Str) : MState :=
  match eventName with
  | none => { st with handlers := [], starHandlers := [], wildcardHandlers := [] }
  | some n =>
    match validateEventName n true with
    | some _ => st
    | none =>
      if n = ['*'] then { st with starHandlers := [] }
      else if n.contains '*' then
        { st with wildcardHandlers := st.wildcardHandlers.filter (fun e => !(e.1 == n)) }
      else { st with handlers := st.handlers.filter (fun e => !(e.1 == n)) }

/-- Pending work of the dispatch machine: handler bodies to run, emissions
to perform, in-progress iterations over the three registries (with their
visited lists), and handler invocations about to happen. -/
inductive Task where
  | run (p : HProg)
  | emitEv (name : Str) (payload : Nat)
  | scanExact (name : Str) (payload : Nat) (visited : List EHandler)
  | scanStar (name : Str) (payload : Nat) (visited : List EHandler)
  | scanPats (name : Str) (payload : Nat) (visitedPats : List Str)
  | scanPatSet (pat : Str) (name : Str) (payload : Nat) (visited : List EHandler)
  | invokeH (h : EHandler) (name : Str) (payload : Nat)
deriving DecidableEq, Repr

/-- Small-step execution of the dispatch machine.  `emitEv` performs
`emit`'s strict validation and then starts the exact, universal and pattern
passes in order; each scan visits the first not-yet-visited handler of the
live collection; `invokeH` runs a handler: the `once` wrapper first
unsubscribes itself (src/index.ts line 311), then the user handler is
invoked (logged) and its body runs. -/
def exec : Nat → MState → List Task → MState
  | 0, st, _ => st
  | _ + 1, st, [] => st
  | fuel + 1, st, t :: ts =>
    match t with
    | .run .ret => exec fuel st ts
    | .run (.emitSeq n p rest) => exec fuel st (.emitEv n p :: .run rest :: ts)
    | .emitEv n p =>
      match validateEventName n false with
      | some _ => exec fuel st ts
      | none => exec fuel st (.scanExact n p [] :: .scanStar n p [] :: .scanPats n p [] :: ts)
    | .scanExact n p visited =>
      match ((regLookup st.handlers n).getD []).find? (fun h => !visited.contains h) with
      | none => exec fuel st ts
      | some h => exec fuel st (.invokeH h n p :: .scanExact n p (visited ++ [h]) :: ts)
    | .scanStar n p visited =>
      match st.starHandlers.find? (fun h => !visited.contains h) with
      | none => exec fuel st ts
      | some h => exec fuel st (.invokeH h n p :: .scanStar n p (visited ++ [h]) :: ts)
    | .scanPats n p visitedP =>
      match st.wildcardHandlers.find? (fun e => !visitedP.contains e.1) with
      | none => exec fuel st ts
      | some e =>
        if patternMatches e.1 n && !e.2.isEmpty then
          exec fuel st (.scanPatSet e.1 n p [] :: .scanPats n p (visitedP ++ [e.1]) :: ts)
        else exec fuel st (.scanPats n p (visitedP ++ [e.1]) :: ts)
    | .scanPatSet pat n p visited =>
      match ((regLookup st.wildcardHandlers pat).getD []).find? (fun h => !visited.contains h) with
      | none => exec fuel st ts
      | some h => exec fuel st (.invokeH h n p :: .scanPatSet pat n p (visited ++ [h]) :: ts)
    | .invokeH h n p =>
      match h with
      | .plain i prog =>
        exec fuel { st with log := st.log ++ [(i, n, p)] } (.run prog :: ts)
      | .onceWrap i sub prog =>
        let st1 := offState st sub (.onceWrap i sub prog)
        exec fuel { st1 with log := st1.log ++ [(i, n, p)] } (.run prog :: ts)

/-- The public operations of the dispatcher, as a sequence of which the
registry invariant is stated.  `onceOp` installs the self-removing wrapper
(`once` calls `on` with the wrapper closure, which captures the
subscription name).  `emitOp` and `emitAsyncOp` both run the dispatch
machine: `emitAsync` performs the same synchronous invocation passes over
the same registries, and the asynchronous continuations it additionally
awaits perform no registry mutation in this handler model. -/
inductive MOp where
  | onOp (name : Str) (id : Nat) (prog : HProg)
  | onceOp (name : Str) (id : Nat) (prog : HProg)
  | offOp (name : Str) (h : EHandler)
  | clearOp (name : Option Str)
  | emitOp (fuel : Nat) (name : Str) (payload : Nat)
  | emitAsyncOp (fuel : Nat) (name : Str) (payload : Nat)

/-- Apply one public operation to the operational state. -/
def applyOp (st : MState) (op : MOp) : MState :=
  match op with
  | .onOp n i prog => onState st n (.plain i prog)
  | .onceOp n i prog => onState st n (.onceWrap i n prog)
  | .offOp n h => offState st n h
  | .clearOp n => clearState st n
  | .emitOp fuel n p => exec fuel st [.emitEv n p]
  | .emitAsyncOp fuel n p => exec fuel st [.emitEv n p]

/-- The registry invariant of claim C9: no entry of the exact or pattern
registry has an empty handler set. -/
def noEmptyReg {α : Type} (reg : List (Str × List α)) : Prop :=
  ∀ e ∈ reg, e.2 ≠ []

/-- The registry invariant over the whole operational state. -/
def regInvariant (st : MState) : Prop :=
  noEmptyReg st.handlers ∧ noEmptyReg st.wildcardHandlers

/-- All three registries are empty (used to reason about dispatch after the
only handler removed itself). -/
def allEmpty (st : MState) : Prop :=
  st.handlers = [] ∧ st.starHandlers = [] ∧ st.wildcardHandlers = []

/-! ## Validation lemmas -/

theorem validate_perm_none_iff (n : Str) :
    validateEventName n true = none ↔ jsTrim n ≠ [] := by
  unfold validateEventName
  split_ifs with h1 <;> simp_all

theorem validate_strict_none_iff (n : Str) :
    validateEventName n false = none ↔ (jsTrim n ≠ [] ∧ n.contains '*' = false) := by
  unfold validateEventName
  split_ifs with h1 h2 <;> simp_all

theorem validate_strict_to_perm {n : Str} (h : validateEventName n false = none) :
    validateEventName n true = none := by
  rw [validate_perm_none_iff]
  exact ((validate_strict_none_iff n).mp h).1

theorem validate_strict_no_star {n : Str} (h : validateEventName n false = none) :
    n.contains '*' = false :=
  ((validate_strict_none_iff n).mp h).2

theorem validate_strict_ne_star {n : Str} (h : validateEventName n false = none) :
    n ≠ ['*'] := by
  intro hn
  have := validate_strict_no_star h
  rw [hn] at this
  simp [List.contains] at this

theorem wildcardMsg_ne_emptyMsg (n : Str) : wildcardMsg n ≠ emptyMsg := by
  intro h
  have hlen := congrArg List.length h
  have h1 : ("Wildcard pattern \"".toList).length = 18 := rfl
  have h2 : ("\" is not allowed for this operation.".toList).length = 36 := rfl
  have h3 : emptyMsg.length = 37 := rfl
  simp only [wildcardMsg, List.length_append, h1, h2, h3] at hlen
  omega

/-- C5: `subscribe`/`unsubscribe`/`subscribeOnce`/`clear` use the permissive
profile, which rejects a name exactly when it is empty after trimming, while
`emit`/`emitAsync` use the strict profile, which rejects exactly when the name
is empty after trimming or contains `*` anywhere, the wildcard case carrying a
distinct message. -/
theorem validation_profiles (n : Str) :
    ((validateEventName n true).isSome ↔ jsTrim n = []) ∧
    ((validateEventName n false).isSome ↔ (jsTrim n = [] ∨ n.contains '*' = true)) ∧
    (jsTrim n ≠ [] → n.contains '*' = true →
      validateEventName n false = some (.invalidEventName (wildcardMsg n)) ∧
        wildcardMsg n ≠ emptyMsg) := by
  refine ⟨?_, ?_, ?_⟩
  · unfold validateEventName
    split_ifs with h1 <;> simp_all
  · unfold validateEventName
    split_ifs with h1 h2 <;> simp_all
  · intro h1 h2
    refine ⟨?_, wildcardMsg_ne_emptyMsg n⟩
    unfold validateEventName
    rw [if_neg h1, if_pos (by simpa using h2)]

/-- Witness for C5 at the concrete name `"a*"`. -/
theorem validation_profiles_witness :
    validateEventName "a*".toList false =
      some (.invalidEventName (wildcardMsg "a*".toList)) ∧
      wildcardMsg "a*".toList ≠ emptyMsg :=
  (validation_profiles "a*".toList).2.2 (by decide) (by decide)

/-! ## C1: surround patterns are dead code -/

/-- C1: the claim (and the source's own comment at src/index.ts line 181)
says a pattern of the form `*middle*` fires exactly on event names containing
`middle`; in fact such a pattern splits on `*` into three fragments, which no
branch of the matcher handles, so its handlers are never invoked.  At the
failing input: `subscribe` accepts the pattern `"*mid*"`, the name `"amid"`
contains `"mid"`, yet `emit` (and `emitAsync`, whose unit collection is empty)
invokes nothing. -/
theorem middle_pattern_dead :
    on' (initState false) "*mid*".toList 5 =
      .ok ⟨[], [], [("*mid*".toList, [5])], false⟩ ∧
    jsIncludes "amid".toList "mid".toList = true ∧
    jsSplitChar '*' "*mid*".toList = [[], "mid".toList, []] ∧
    patternMatches "*mid*".toList "amid".toList = false ∧
    emit ⟨[], [], [("*mid*".toList, [5])], false⟩ "amid".toList 0 = .ok [] ∧
    collectUnits ⟨[], [], [("*mid*".toList, [5])], false⟩
      (fun _ => .async 1 none) "amid".toList = [] := by
  decide

/-! ## Splitting and shape lemmas for the pattern matcher -/

theorem jsSplitChar_ne_nil (sep : Char) (l : Str) : jsSplitChar sep l ≠ [] := by
  induction l with
  | nil => simp [jsSplitChar]
  | cons c rest ih =>
    simp only [jsSplitChar]
    split_ifs with h
    · simp
    · cases hrec : jsSplitChar sep rest with
      | nil => exact absurd hrec ih
      | cons a t => simp [hrec]

theorem jsSplitChar_length (sep : Char) (l : Str) :
    (jsSplitChar sep l).length = l.count sep + 1 := by
  induction l with
  | nil => simp [jsSplitChar]
  | cons c rest ih =>
    simp only [jsSplitChar]
    split_ifs with h
    · subst h
      simp only [List.length_cons, ih, List.count_cons]
      simp
    · cases hrec : jsSplitChar sep rest with
      | nil => exact absurd hrec (jsSplitChar_ne_nil sep rest)
      | cons a t =>
        rw [hrec] at ih
        simp only [hrec, List.length_cons, List.count_cons] at ih ⊢
        have hsc : ¬(sep = c) := fun hh => h hh.symm
        simp [hsc, h, ih]

theorem jsSplitChar_append_no_sep (sep : Char) (l m : Str) (hl : sep ∉ l) :
    jsSplitChar sep (l ++ m) =
      (l ++ (jsSplitChar sep m).headD []) :: (jsSplitChar sep m).tail := by
  induction l with
  | nil =>
    cases hrec : jsSplitChar sep m with
    | nil => exact absurd hrec (jsSplitChar_ne_nil sep m)
    | cons a t => simp [hrec]
  | cons c rest ih =>
    have hc : ¬(c = sep) := fun hh => hl (by simp [hh])
    have hrest : sep ∉ rest := fun hh => hl (by simp [hh])
    rw [List.cons_append]
    simp only [jsSplitChar, if_neg hc]
    rw [ih hrest]
    simp

theorem jsSplitChar_no_sep (sep : Char) (l : Str) (hl : sep ∉ l) :
    jsSplitChar sep l = [l] := by
  have := jsSplitChar_append_no_sep sep l [] hl
  simpa [jsSplitChar] using this

theorem jsSplitChar_sep_mid (sep : Char) (l m : Str) (hl : sep ∉ l) :
    jsSplitChar sep (l ++ sep :: m) = l :: jsSplitChar sep m := by
  have := jsSplitChar_append_no_sep sep l (sep :: m) hl
  rw [this]
  cases hrec : jsSplitChar sep m with
  | nil => exact absurd hrec (jsSplitChar_ne_nil sep m)
  | cons a t => simp [jsSplitChar, hrec]

theorem isPrefixOf_single_append_ne (c : Char) (l m : Str) (hne : l ≠ []) (hc : c ∉ l) :
    [c].isPrefixOf (l ++ m) = false := by
  cases l with
  | nil => exact absurd rfl hne
  | cons a as =>
    have hca : ¬(c = a) := fun h => hc (by simp [h])
    simp [List.isPrefixOf, hca]

theorem jsStartsWith_star_cons (m : Str) : jsStartsWith ('*' :: m) ['*'] = true := by
  simp [jsStartsWith, List.isPrefixOf]

theorem jsStartsWith_star_of_ne (l m : Str) (hne : l ≠ []) (hc : '*' ∉ l) :
    jsStartsWith (l ++ m) ['*'] = false :=
  isPrefixOf_single_append_ne '*' l m hne hc

theorem jsEndsWith_append_star (l : Str) : jsEndsWith (l ++ ['*']) ['*'] = true := by
  simp [jsEndsWith, List.isSuffixOf, List.isPrefixOf]

theorem jsEndsWith_star_of_ne (l m : Str) (hne : l ≠ []) (hc : '*' ∉ l) :
    jsEndsWith (m ++ l) ['*'] = false := by
  simp only [jsEndsWith, List.isSuffixOf, List.reverse_append]
  have h1 : (['*'] : Str).reverse = ['*'] := rfl
  rw [h1]
  exact isPrefixOf_single_append_ne '*' l.reverse m.reverse (by simpa using hne)
    (by simpa using hc)

theorem patternMatches_one_star_end (pre name : Str) (hne : pre ≠ []) (hc : '*' ∉ pre) :
    patternMatches (pre ++ ['*']) name = jsStartsWith name pre := by
  have hsplit : jsSplitChar '*' (pre ++ ['*']) = [pre, []] := by
    simpa [jsSplitChar] using jsSplitChar_sep_mid '*' pre [] hc
  simp [patternMatches, hsplit, jsStartsWith_star_of_ne pre ['*'] hne hc,
    jsEndsWith_append_star]

theorem patternMatches_one_star_front (suf name : Str) (hne : suf ≠ []) (hc : '*' ∉ suf) :
    patternMatches ('*' :: suf) name = jsEndsWith name suf := by
  have hsplit : jsSplitChar '*' ('*' :: suf) = [[], suf] := by
    simp [jsSplitChar, jsSplitChar_no_sep '*' suf hc]
  have hends : jsEndsWith ('*' :: suf) ['*'] = false := by
    simpa using jsEndsWith_star_of_ne suf ['*'] hne hc
  simp [patternMatches, hsplit, jsStartsWith_star_cons, hends]

theorem patternMatches_one_star_mid (pre suf name : Str)
    (hpre : pre ≠ []) (hsuf : suf ≠ []) (hcp : '*' ∉ pre) (hcs : '*' ∉ suf) :
    patternMatches (pre ++ '*' :: suf) name =
      (jsStartsWith name pre && jsEndsWith name suf &&
        decide (pre.length + suf.length ≤ name.length)) := by
  have hsplit : jsSplitChar '*' (pre ++ '*' :: suf) = [pre, suf] := by
    rw [jsSplitChar_sep_mid '*' pre suf hcp, jsSplitChar_no_sep '*' suf hcs]
  have hstarts : jsStartsWith (pre ++ '*' :: suf) ['*'] = false :=
    jsStartsWith_star_of_ne pre ('*' :: suf) hpre hcp
  have hends : jsEndsWith (pre ++ '*' :: suf) ['*'] = false := by
    have := jsEndsWith_star_of_ne suf (pre ++ ['*']) hsuf hcs
    simpa [List.append_assoc] using this
  simp [patternMatches, hsplit, hstarts, hends]

theorem patternMatches_multi_star (pat name : Str) (h : 2 ≤ pat.count '*') :
    patternMatches pat name = false := by
  have hlen : (jsSplitChar '*' pat).length = pat.count '*' + 1 :=
    jsSplitChar_length '*' pat
  simp only [patternMatches, hlen]
  rw [if_neg (by omega), if_neg (by omega)]

/-! ## Which pattern invocations `emit` performs -/

theorem emit_pattern_mem (st : EmitterState) (name : Str) (payload : Nat)
    (calls : List Call) (hok : emit st name payload = .ok calls) (q : Str) (h : Nat) :
    (Call.pattern q h name payload ∈ calls ↔
      ∃ hs, (q, hs) ∈ st.wildcardHandlers ∧ h ∈ hs ∧ patternMatches q name = true) := by
  unfold emit at hok
  cases hval : validateEventName name false with
  | some e => rw [hval] at hok; cases hok
  | none =>
    rw [hval] at hok
    by_cases hthrow : (!matchedAny st name && st.throwOnNoListeners) = true
    · rw [if_pos hthrow] at hok; cases hok
    · rw [if_neg hthrow] at hok
      injection hok with hcalls
      subst hcalls
      constructor
      · intro hmem
        rcases List.mem_append.mp hmem with hab | hcw
        · exfalso
          rcases List.mem_append.mp hab with ha | hb
          · rcases hlk : regLookup st.handlers name with _ | hs
            · rw [hlk] at ha; simp at ha
            · rw [hlk] at ha; simp at ha
          · simp at hb
        · rcases List.mem_flatten.mp hcw with ⟨l, hl, hmeml⟩
          rcases List.mem_map.mp hl with ⟨e, he, rfl⟩
          by_cases hcond : (patternMatches e.1 name && !e.2.isEmpty) = true
          · rw [if_pos hcond] at hmeml
            rcases List.mem_map.mp hmeml with ⟨hh, hhmem, heq⟩
            injection heq with h1 h2 h3 h4
            subst h1
            subst h2
            have hpm : patternMatches e.1 name = true := by
              simp only [Bool.and_eq_true] at hcond
              exact hcond.1
            exact ⟨e.2, by simpa using he, hhmem, hpm⟩
          · rw [if_neg hcond] at hmeml; simp at hmeml
      · rintro ⟨hs, hentry, hh, hpm⟩
        apply List.mem_append.mpr
        right
        apply List.mem_flatten.mpr
        refine ⟨(if patternMatches q name && !hs.isEmpty then
          hs.map (fun hh => Call.pattern q hh name payload) else []), ?_, ?_⟩
        · apply List.mem_map.mpr
          exact ⟨(q, hs), hentry, rfl⟩
        · have hne : hs.isEmpty = false := by
            cases hs with
            | nil => cases hh
            | cons a t => rfl
          rw [if_pos (by simp [hpm, hne])]
          exact List.mem_map.mpr ⟨h, hh, rfl⟩

/-! ## C3: patterns with more than one `*` -/

/-- C3 counterexample: the pattern `"a*b*c"` is registered and the event
name `"abc"` starts with the first fragment `"a"` and ends with the last
fragment `"c"`, so by the claim its handlers should fire; `emit` invokes
nothing. -/
theorem multi_star_counterexample :
    jsStartsWith "abc".toList "a".toList = true ∧
    jsEndsWith "abc".toList "c".toList = true ∧
    emit ⟨[], [], [("a*b*c".toList, [5])], false⟩ "abc".toList 0 = .ok [] := by
  decide

/-- C3 amended: a registered pattern containing more than one `*` never
matches any event name — its split has three or more fragments, which no
branch of the matcher handles — so `emit` never invokes its handlers. -/
theorem multi_star_never_fires (st : EmitterState) (name : Str) (payload : Nat)
    (pat : Str) (h : Nat) (calls : List Call)
    (hstars : 2 ≤ pat.count '*')
    (hok : emit st name payload = .ok calls) :
    patternMatches pat name = false ∧ Call.pattern pat h name payload ∉ calls := by
  have hpm := patternMatches_multi_star pat name hstars
  refine ⟨hpm, ?_⟩
  intro hmem
  rcases (emit_pattern_mem st name payload calls hok pat h).mp hmem with ⟨hs, _, _, hpm2⟩
  simp [hpm] at hpm2

/-- Witness for the amended C3 at the concrete pattern `"a*b*c"`. -/
theorem multi_star_never_fires_witness :
    patternMatches "a*b*c".toList "abc".toList = false ∧
    Call.pattern "a*b*c".toList 5 "abc".toList 0 ∉ ([] : List Call) :=
  multi_star_never_fires ⟨[], [], [("a*b*c".toList, [5])], false⟩ "abc".toList 0
    "a*b*c".toList 5 [] (by decide) (by decide)

/-! ## C4: the three single-wildcard shapes -/

/-- C4: for a registered single-wildcard pattern and any emission that
returns normally: `prefixFrag*` fires its handlers iff the name starts with
the fragment; `*suffixFrag` fires iff the name ends with the fragment; and
`frag1*frag2` with both fragments non-empty fires iff the name starts with
`frag1`, ends with `frag2`, and is at least as long as the two fragments
combined. -/
theorem single_wildcard_shapes (st : EmitterState) (name : Str) (payload h : Nat) :
    (∀ pre hs calls, pre ≠ [] → '*' ∉ pre →
      (pre ++ ['*'], hs) ∈ st.wildcardHandlers → h ∈ hs →
      emit st name payload = .ok calls →
      (Call.pattern (pre ++ ['*']) h name payload ∈ calls ↔ jsStartsWith name pre = true)) ∧
    (∀ suf hs calls, suf ≠ [] → '*' ∉ suf →
      ('*' :: suf, hs) ∈ st.wildcardHandlers → h ∈ hs →
      emit st name payload = .ok calls →
      (Call.pattern ('*' :: suf) h name payload ∈ calls ↔ jsEndsWith name suf = true)) ∧
    (∀ pre suf hs calls, pre ≠ [] → suf ≠ [] → '*' ∉ pre → '*' ∉ suf →
      (pre ++ '*' :: suf, hs) ∈ st.wildcardHandlers → h ∈ hs →
      emit st name payload = .ok calls →
      (Call.pattern (pre ++ '*' :: suf) h name payload ∈ calls ↔
        (jsStartsWith name pre = true ∧ jsEndsWith name suf = true ∧
          pre.length + suf.length ≤ name.length))) := by
  refine ⟨?_, ?_, ?_⟩
  · intro pre hs calls hne hc hentry hh hok
    rw [emit_pattern_mem st name payload calls hok _ h]
    constructor
    · rintro ⟨hs', _, _, hpm⟩
      rwa [patternMatches_one_star_end pre name hne hc] at hpm
    · intro hsw
      exact ⟨hs, hentry, hh, by rw [patternMatches_one_star_end pre name hne hc]; exact hsw⟩
  · intro suf hs calls hne hc hentry hh hok
    rw [emit_pattern_mem st name payload calls hok _ h]
    constructor
    · rintro ⟨hs', _, _, hpm⟩
      rwa [patternMatches_one_star_front suf name hne hc] at hpm
    · intro hsw
      exact ⟨hs, hentry, hh, by rw [patternMatches_one_star_front suf name hne hc]; exact hsw⟩
  · intro pre suf hs calls hpre hsuf hcp hcs hentry hh hok
    rw [emit_pattern_mem st name payload calls hok _ h]
    constructor
    · rintro ⟨hs', _, _, hpm⟩
      rw [patternMatches_one_star_mid pre suf name hpre hsuf hcp hcs] at hpm
      simp only [Bool.and_eq_true, decide_eq_true_eq] at hpm
      exact ⟨hpm.1.1, hpm.1.2, hpm.2⟩
    · intro hsw
      refine ⟨hs, hentry, hh, ?_⟩
      rw [patternMatches_one_star_mid pre suf name hpre hsuf hcp hcs]
      simp [hsw.1, hsw.2.1, hsw.2.2]

/-! ## C10: raw names as registry keys -/

/-- C10: validation trims only to test emptiness and registries are keyed by
the raw string: a name that is non-empty after trimming but differs from its
trimmed form is accepted by `subscribe` and stored raw, an emission of the
raw name invokes the handler, and an emission of the trimmed name invokes
nothing. -/
theorem raw_name_keys (n : Str) (h payload : Nat)
    (h1 : jsTrim n ≠ [])
    (h2 : n.contains '*' = false)
    (h3 : n ≠ jsTrim n)
    (h4 : validateEventName (jsTrim n) false = none) :
    on' (initState false) n h = .ok ⟨[(n, [h])], [], [], false⟩ ∧
    emit ⟨[(n, [h])], [], [], false⟩ n payload = .ok [Call.exact h payload] ∧
    emit ⟨[(n, [h])], [], [], false⟩ (jsTrim n) payload = .ok [] := by
  have hperm : validateEventName n true = none := (validate_perm_none_iff n).mpr h1
  have hstrict : validateEventName n false = none :=
    (validate_strict_none_iff n).mpr ⟨h1, h2⟩
  have hnstar : ¬(n = ['*']) := by
    intro hn
    rw [hn] at h2
    simp [List.contains] at h2
  have hne : (n == jsTrim n) = false := by
    simp only [beq_eq_false_iff_ne, ne_eq]
    exact h3
  refine ⟨?_, ?_, ?_⟩
  · simp only [on', hperm, initState]
    rw [if_neg hnstar, if_neg (by rw [h2]; simp)]
    simp [regAdd, regLookup]
  · simp only [emit, hstrict]
    rw [if_neg (by simp)]
    simp [regLookup, List.find?]
  · simp only [emit, h4]
    rw [if_neg (by simp)]
    simp [regLookup, List.find?, hne, matchedAny]

/-- Witness for C10 at the concrete name `" a "`. -/
theorem raw_name_keys_witness :
    on' (initState false) " a ".toList 3 = .ok ⟨[(" a ".toList, [3])], [], [], false⟩ ∧
    emit ⟨[(" a ".toList, [3])], [], [], false⟩ " a ".toList 7 = .ok [Call.exact 3 7] ∧
    emit ⟨[(" a ".toList, [3])], [], [], false⟩ (jsTrim " a ".toList) 7 = .ok [] :=
  raw_name_keys " a ".toList 3 7 (by decide) (by decide) (by decide) (by decide)

/-! ## C6: the no-listeners policy -/

/-- C6: with a valid name, `emit` throws `NoListenersError` naming the event
exactly when `throwOnNoListeners` is set and no handler in any of the three
registries matched; if some handler matched, `emit` returns normally;
`emitAsync` applies the same zero-match condition but delivers the error as
a failure of the returned completion signal (its result type has no
synchronous-throw channel at all). -/
theorem no_listeners_policy (st : EmitterState) (beh : Nat → HOutcome) (name : Str)
    (payload : Nat) (hvalid : validateEventName name false = none) :
    (emit st name payload = .error (.noListeners name) ↔
      st.throwOnNoListeners = true ∧ matchedAny st name = false) ∧
    (matchedAny st name = true → ∃ calls, emit st name payload = .ok calls) ∧
    ((emitAsync st beh name).failure = some (.emitterErr (.noListeners name)) ↔
      st.throwOnNoListeners = true ∧ matchedAny st name = false) := by
  refine ⟨?_, ?_, ?_⟩
  · simp only [emit, hvalid]
    by_cases hcond : (!matchedAny st name && st.throwOnNoListeners) = true
    · rw [if_pos hcond]
      simp only [Bool.and_eq_true, Bool.not_eq_true'] at hcond
      simp [hcond.1, hcond.2]
    · rw [if_neg hcond]
      simp only [Bool.and_eq_true, Bool.not_eq_true'] at hcond
      constructor
      · intro hcontra; cases hcontra
      · rintro ⟨ht, hm⟩
        exact absurd ⟨hm, ht⟩ hcond
  · intro hm
    simp only [emit, hvalid]
    rw [if_neg (by simp [hm])]
    exact ⟨_, rfl⟩
  · simp only [emitAsync, hvalid]
    by_cases hcond : (!matchedAny st name && st.throwOnNoListeners) = true
    · rw [if_pos hcond]
      simp only [Bool.and_eq_true, Bool.not_eq_true'] at hcond
      simp [hcond.1, hcond.2]
    · rw [if_neg hcond]
      simp only [Bool.and_eq_true, Bool.not_eq_true'] at hcond
      constructor
      · intro hfail
        exfalso
        rcases hmap : (promiseAll (collectUnits st beh name)).fail with _ | e <;>
          rw [hmap] at hfail <;> simp at hfail
      · rintro ⟨ht, hm⟩
        exact absurd ⟨hm, ht⟩ hcond

/-- Witness for C6: a dispatcher with `throwOnNoListeners` and no handlers. -/
theorem no_listeners_policy_witness :
    emit (initState true) "e".toList 0 = .error (.noListeners "e".toList) :=
  ((no_listeners_policy (initState true) (fun _ => .syncOk) "e".toList 0 (by decide)).1).mpr
    (by decide)

/-! ## Promise.all lemmas -/

theorem earliestFail_none {us : List PendUnit} (h : earliestFail us = none) :
    ∀ u ∈ us, u.fail = none := by
  induction us with
  | nil => simp
  | cons a rest ih =>
    simp only [earliestFail] at h
    cases hrec : earliestFail rest with
    | none =>
      simp only [hrec] at h
      by_cases ha : a.fail.isSome = true
      · rw [if_pos ha] at h; cases h
      · intro u hu
        rcases List.mem_cons.mp hu with rfl | hu
        · simpa using ha
        · exact ih hrec u hu
    | some w =>
      simp only [hrec] at h
      split_ifs at h

theorem earliestFail_mem {us : List PendUnit} {u : PendUnit}
    (h : earliestFail us = some u) :
    u ∈ us ∧ u.fail.isSome = true ∧
      ∀ v ∈ us, v.fail.isSome = true → u.settleAt ≤ v.settleAt := by
  induction us generalizing u with
  | nil => cases h
  | cons a rest ih =>
    simp only [earliestFail] at h
    cases hrec : earliestFail rest with
    | none =>
      simp only [hrec] at h
      by_cases ha : a.fail.isSome = true
      · rw [if_pos ha] at h
        injection h with h
        subst h
        refine ⟨by simp, ha, ?_⟩
        intro v hv hvf
        rcases List.mem_cons.mp hv with rfl | hv
        · exact le_refl _
        · rw [earliestFail_none hrec v hv] at hvf
          cases hvf
      · rw [if_neg ha] at h; cases h
    | some w =>
      simp only [hrec] at h
      rcases ih hrec with ⟨hwmem, hwf, hwmin⟩
      by_cases ha : (a.fail.isSome && decide (a.settleAt ≤ w.settleAt)) = true
      · rw [if_pos ha] at h
        injection h with h
        subst h
        simp only [Bool.and_eq_true, decide_eq_true_eq] at ha
        refine ⟨by simp, ha.1, ?_⟩
        intro v hv hvf
        rcases List.mem_cons.mp hv with rfl | hv
        · exact le_refl _
        · exact le_trans ha.2 (hwmin v hv hvf)
      · rw [if_neg ha] at h
        injection h with h
        subst h
        refine ⟨List.mem_cons_of_mem a hwmem, hwf, ?_⟩
        intro v hv hvf
        rcases List.mem_cons.mp hv with rfl | hv
        · simp only [Bool.and_eq_true, decide_eq_true_eq, not_and] at ha
          have := ha hvf
          omega
        · exact hwmin v hv hvf

theorem earliestFail_isSome {us : List PendUnit} {u : PendUnit} (hu : u ∈ us)
    (hf : u.fail.isSome = true) : (earliestFail us).isSome = true := by
  cases hef : earliestFail us with
  | none =>
    rw [earliestFail_none hef u hu] at hf
    cases hf
  | some w => rfl

theorem maxSettle_cons (a : PendUnit) (rest : List PendUnit) :
    maxSettle (a :: rest) = max a.settleAt (maxSettle rest) := by
  simp [maxSettle]

theorem maxSettle_ge {us : List PendUnit} {u : PendUnit} (h : u ∈ us) :
    u.settleAt ≤ maxSettle us := by
  induction us with
  | nil => cases h
  | cons a rest ih =>
    rw [maxSettle_cons]
    rcases List.mem_cons.mp h with rfl | h
    · exact le_max_left _ _
    · exact le_trans (ih h) (le_max_right _ _)

/-! ## C2: Promise.all rejection timing -/

/-- C2 counterexample: two matched handlers produce one unit rejecting at
time 1 (reason 7) and one sibling unit still pending until time 5; the
completion signal rejects at time 1, i.e. while the sibling unit is still
pending, contradicting the claim that it fails only once all units have
settled. -/
theorem aggregate_reject_counterexample :
    collectUnits ⟨[("e".toList, [1, 2])], [], [], false⟩
        (fun i => if i = 1 then .async 1 (some 7) else .async 5 none) "e".toList
      = [⟨1, some 7⟩, ⟨5, none⟩] ∧
    emitAsync ⟨[("e".toList, [1, 2])], [], [], false⟩
        (fun i => if i = 1 then .async 1 (some 7) else .async 5 none) "e".toList
      = ⟨1, some (.handlerErr 7)⟩ ∧
    (1 : Nat) < 5 := by
  decide

/-- C2 amended: when at least one collected unit fails, the completion
signal fails with the reason of an earliest-rejecting unit at that unit's
settlement time — which may be before sibling units have settled; sibling
units are not cancelled (nothing in the model stops them). -/
theorem async_reject_first_failure (st : EmitterState) (beh : Nat → HOutcome)
    (name : Str)
    (hvalid : validateEventName name false = none)
    (hfound : matchedAny st name = true)
    (hfail : ∃ u ∈ collectUnits st beh name, u.fail.isSome = true) :
    ∃ u ∈ collectUnits st beh name, u.fail.isSome = true ∧
      emitAsync st beh name = ⟨u.settleAt, u.fail.map AsyncFailure.handlerErr⟩ ∧
      ∀ v ∈ collectUnits st beh name, v.fail.isSome = true → u.settleAt ≤ v.settleAt := by
  rcases hfail with ⟨u0, hu0, hu0f⟩
  cases hef : earliestFail (collectUnits st beh name) with
  | none =>
    exfalso
    rw [earliestFail_none hef u0 hu0] at hu0f
    cases hu0f
  | some u =>
    rcases earliestFail_mem hef with ⟨humem, huf, humin⟩
    refine ⟨u, humem, huf, ?_, humin⟩
    simp only [emitAsync, hvalid]
    rw [if_neg (by simp [hfound])]
    simp [promiseAll, hef]

/-- Witness for the amended C2 at the concrete two-handler scenario. -/
theorem async_reject_first_failure_witness :
    ∃ u ∈ collectUnits ⟨[("e".toList, [1, 2])], [], [], false⟩
        (fun i => if i = 1 then .async 1 (some 7) else .async 5 none) "e".toList,
      u.fail.isSome = true ∧
      emitAsync ⟨[("e".toList, [1, 2])], [], [], false⟩
          (fun i => if i = 1 then .async 1 (some 7) else .async 5 none) "e".toList
        = ⟨u.settleAt, u.fail.map AsyncFailure.handlerErr⟩ ∧
      ∀ v ∈ collectUnits ⟨[("e".toList, [1, 2])], [], [], false⟩
          (fun i => if i = 1 then .async 1 (some 7) else .async 5 none) "e".toList,
        v.fail.isSome = true → u.settleAt ≤ v.settleAt :=
  async_reject_first_failure ⟨[("e".toList, [1, 2])], [], [], false⟩
    (fun i => if i = 1 then .async 1 (some 7) else .async 5 none) "e".toList
    (by decide) (by decide) ⟨⟨1, some 7⟩, by decide, by decide⟩

/-! ## C8: success of `emitAsync` implies every handler finished -/

/-- C8: if the completion signal of `emitAsync` settles successfully then
every collected unit of work succeeded and had settled no later than the
signal; and a matched handler that throws synchronously is captured as an
immediately-settled failed unit (making the signal fail) instead of
propagating synchronously. -/
theorem async_success_waits_all (st : EmitterState) (beh : Nat → HOutcome) (name : Str)
    (hvalid : validateEventName name false = none) :
    ((emitAsync st beh name).failure = none →
      ∀ u ∈ collectUnits st beh name,
        u.fail = none ∧ u.settleAt ≤ (emitAsync st beh name).settleAt) ∧
    (∀ hnd e, handlerMatched st name hnd = true → beh hnd = .syncThrow e →
      PendUnit.mk 0 (some e) ∈ collectUnits st beh name ∧
        (emitAsync st beh name).failure ≠ none) := by
  constructor
  · simp only [emitAsync, hvalid]
    by_cases hcond : (!matchedAny st name && st.throwOnNoListeners) = true
    · rw [if_pos hcond]
      simp
    · rw [if_neg hcond]
      intro hnone u hu
      cases hef : earliestFail (collectUnits st beh name) with
      | some w =>
        simp only [promiseAll, hef] at hnone
        rcases earliestFail_mem hef with ⟨_, hwf, _⟩
        rcases hw : w.fail with _ | e
        · rw [hw] at hwf; cases hwf
        · rw [hw] at hnone; simp at hnone
      | none =>
        refine ⟨earliestFail_none hef u hu, ?_⟩
        simp only [promiseAll, hef]
        exact maxSettle_ge hu
  · intro hnd e hmat hbeh
    have hwrap : wrapInvoke (beh hnd) = some ⟨0, some e⟩ := by rw [hbeh]; rfl
    have hmem : PendUnit.mk 0 (some e) ∈ collectUnits st beh name := by
      simp only [handlerMatched, Bool.or_eq_true] at hmat
      rcases hmat with (hA | hB) | hC
      · rcases hlk : regLookup st.handlers name with _ | hs
        · rw [hlk] at hA; simp at hA
        · rw [hlk] at hA
          have hmemh : hnd ∈ hs := by simpa using hA
          have hsz : hs.isEmpty = false := by
            cases hs with
            | nil => cases hmemh
            | cons x t => rfl
          simp only [collectUnits, hlk, hsz]
          apply List.mem_append.mpr
          left
          apply List.mem_append.mpr
          left
          simp only [Bool.not_false, if_pos]
          exact List.mem_filterMap.mpr ⟨hnd, hmemh, hwrap⟩
      · have hmemh : hnd ∈ st.starHandlers := by simpa using hB
        have hsz : st.starHandlers.isEmpty = false := by
          cases hst : st.starHandlers with
          | nil => rw [hst] at hmemh; cases hmemh
          | cons x t => rfl
        simp only [collectUnits, hsz]
        apply List.mem_append.mpr
        left
        apply List.mem_append.mpr
        right
        simp only [Bool.not_false, if_pos]
        exact List.mem_filterMap.mpr ⟨hnd, hmemh, hwrap⟩
      · rcases List.any_eq_true.mp hC with ⟨entry, hentry, hcondb⟩
        simp only [Bool.and_eq_true] at hcondb
        have hmemh : hnd ∈ entry.2 := by simpa using hcondb.2
        simp only [collectUnits]
        apply List.mem_append.mpr
        right
        apply List.mem_flatten.mpr
        refine ⟨(if patternMatches entry.1 name && !entry.2.isEmpty then
          entry.2.filterMap (fun h => wrapInvoke (beh h)) else []), ?_, ?_⟩
        · exact List.mem_map.mpr ⟨entry, hentry, rfl⟩
        · rw [if_pos (by simp [hcondb.1.1, hcondb.1.2])]
          exact List.mem_filterMap.mpr ⟨hnd, hmemh, hwrap⟩
    refine ⟨hmem, ?_⟩
    simp only [emitAsync, hvalid]
    by_cases hcond : (!matchedAny st name && st.throwOnNoListeners) = true
    · rw [if_pos hcond]
      simp
    · rw [if_neg hcond]
      have hsome := earliestFail_isSome hmem (by rfl)
      cases hef : earliestFail (collectUnits st beh name) with
      | none => rw [hef] at hsome; cases hsome
      | some w =>
        rcases earliestFail_mem hef with ⟨_, hwf, _⟩
        simp only [promiseAll, hef]
        rcases hw : w.fail with _ | e'
        · rw [hw] at hwf; cases hwf
        · simp [hw]

/-- Witness for C8: a matched synchronously-throwing handler produces a
failed unit and a failing signal. -/
theorem async_success_waits_all_witness :
    PendUnit.mk 0 (some 7) ∈ collectUnits ⟨[("e".toList, [1])], [], [], false⟩
        (fun _ => .syncThrow 7) "e".toList ∧
    (emitAsync ⟨[("e".toList, [1])], [], [], false⟩
        (fun _ => .syncThrow 7) "e".toList).failure ≠ none :=
  (async_success_waits_all ⟨[("e".toList, [1])], [], [], false⟩
      (fun _ => .syncThrow 7) "e".toList (by decide)).2 1 7 (by decide) (by decide)

/-! ## C9: no empty registry entries -/

theorem setAdd_ne_nil {α : Type} [BEq α] (l : List α) (h : α) : setAdd l h ≠ [] := by
  unfold setAdd
  split_ifs with hc
  · intro he
    rw [he] at hc
    simp at hc
  · simp

theorem noEmptyReg_regAdd {α : Type} [BEq α] {reg : List (Str × List α)} (k : Str)
    (h : α) (hreg : noEmptyReg reg) : noEmptyReg (regAdd reg k h) := by
  unfold regAdd
  split_ifs with hfind
  · intro e he
    rcases List.mem_map.mp he with ⟨e0, he0, rfl⟩
    by_cases hk : (e0.1 == k) = true
    · rw [if_pos hk]
      exact setAdd_ne_nil e0.2 h
    · rw [if_neg hk]
      exact hreg e0 he0
  · intro e he
    rcases List.mem_append.mp he with he | he
    · exact hreg e he
    · rcases List.mem_singleton.mp he with rfl
      simp

theorem noEmptyReg_regRemove {α : Type} [BEq α] {reg : List (Str × List α)} (k : Str)
    (h : α) (hreg : noEmptyReg reg) : noEmptyReg (regRemove reg k h) := by
  intro e he
  rcases List.mem_filterMap.mp he with ⟨e0, he0, hf⟩
  simp only at hf
  by_cases hk : (e0.1 == k) = true
  · rw [if_pos hk] at hf
    by_cases hemp : (e0.2.erase h).isEmpty = true
    · rw [if_pos hemp] at hf
      cases hf
    · rw [if_neg hemp] at hf
      obtain rfl := Option.some.inj hf
      intro hnil
      exact hemp (by simp only [List.isEmpty_iff]; exact hnil)
  · rw [if_neg hk] at hf
    injection hf with hf
    subst hf
    exact hreg e0 he0

theorem noEmptyReg_filter {α : Type} {reg : List (Str × List α)}
    (p : Str × List α → Bool) (hreg : noEmptyReg reg) : noEmptyReg (reg.filter p) :=
  fun e he => hreg e (List.mem_filter.mp he).1

theorem regInvariant_onState (st : MState) (n : Str) (h : EHandler)
    (hst : regInvariant st) : regInvariant (onState st n h) := by
  unfold onState
  cases validateEventName n true with
  | some e => exact hst
  | none =>
    split_ifs with h1 h2
    · exact hst
    · exact ⟨hst.1, noEmptyReg_regAdd n h hst.2⟩
    · exact ⟨noEmptyReg_regAdd n h hst.1, hst.2⟩

theorem regInvariant_offState (st : MState) (n : Str) (h : EHandler)
    (hst : regInvariant st) : regInvariant (offState st n h) := by
  unfold offState
  cases validateEventName n true with
  | some e => exact hst
  | none =>
    split_ifs with h1 h2
    · exact hst
    · exact ⟨hst.1, noEmptyReg_regRemove n h hst.2⟩
    · exact ⟨noEmptyReg_regRemove n h hst.1, hst.2⟩

theorem regInvariant_clearState (st : MState) (n : Option Str)
    (hst : regInvariant st) : regInvariant (clearState st n) := by
  cases n with
  | none =>
    exact ⟨fun e he => absurd he (List.not_mem_nil e),
      fun e he => absurd he (List.not_mem_nil e)⟩
  | some s =>
    simp only [clearState]
    cases validateEventName s true with
    | some e => exact hst
    | none =>
      split_ifs with h1 h2
      · exact hst
      · exact ⟨hst.1, noEmptyReg_filter _ hst.2⟩
      · exact ⟨noEmptyReg_filter _ hst.1, hst.2⟩

theorem regInvariant_exec (fuel : Nat) (st : MState) (ts : List Task)
    (hst : regInvariant st) : regInvariant (exec fuel st ts) := by
  induction fuel generalizing st ts with
  | zero => simpa only [exec] using hst
  | succ fuel ih =>
    cases ts with
    | nil => simpa only [exec] using hst
    | cons t ts =>
      cases t with
      | run p =>
        cases p with
        | ret => simp only [exec]; exact ih st ts hst
        | emitSeq n pl rest => simp only [exec]; exact ih st _ hst
      | emitEv n p =>
        simp only [exec]
        cases hv : validateEventName n false with
        | some e => simp only [hv]; exact ih st ts hst
        | none => simp only [hv]; exact ih st _ hst
      | scanExact n p visited =>
        simp only [exec]
        cases hf : ((regLookup st.handlers n).getD []).find?
            (fun h => !visited.contains h) with
        | none => simp only [hf]; exact ih st ts hst
        | some h => simp only [hf]; exact ih st _ hst
      | scanStar n p visited =>
        simp only [exec]
        cases hf : st.starHandlers.find? (fun h => !visited.contains h) with
        | none => simp only [hf]; exact ih st ts hst
        | some h => simp only [hf]; exact ih st _ hst
      | scanPats n p visitedP =>
        simp only [exec]
        cases hf : st.wildcardHandlers.find? (fun e => !visitedP.contains e.1) with
        | none => simp only [hf]; exact ih st ts hst
        | some entry =>
          simp only [hf]
          split_ifs with hcond
          · exact ih st _ hst
          · exact ih st _ hst
      | scanPatSet pat n p visited =>
        simp only [exec]
        cases hf : ((regLookup st.wildcardHandlers pat).getD []).find?
            (fun h => !visited.contains h) with
        | none => simp only [hf]; exact ih st ts hst
        | some h => simp only [hf]; exact ih st _ hst
      | invokeH h n p =>
        cases h with
        | plain i prog =>
          simp only [exec]
          exact ih _ _ hst
        | onceWrap i sub prog =>
          simp only [exec]
          exact ih _ _ (regInvariant_offState st sub _ hst)

theorem regInvariant_applyOp (st : MState) (op : MOp) (hst : regInvariant st) :
    regInvariant (applyOp st op) := by
  cases op with
  | onOp n i prog => exact regInvariant_onState st n _ hst
  | onceOp n i prog => exact regInvariant_onState st n _ hst
  | offOp n h => exact regInvariant_offState st n h hst
  | clearOp n => exact regInvariant_clearState st n hst
  | emitOp fuel n p => exact regInvariant_exec fuel st _ hst
  | emitAsyncOp fuel n p => exact regInvariant_exec fuel st _ hst

theorem regInvariant_foldl (ops : List MOp) (st : MState) (hst : regInvariant st) :
    regInvariant (List.foldl applyOp st ops) := by
  induction ops generalizing st with
  | nil => simpa using hst
  | cons op ops ih => exact ih _ (regInvariant_applyOp st op hst)

/-- C9: after any sequence of subscribe, subscribeOnce, unsubscribe, clear
and (possibly re-entrant) emit/emitAsync operations starting from the
constructor state, no entry of the exact or pattern registry has an empty
handler set: every removal that empties a set deletes its entry in the same
operation. -/
theorem registry_no_empty_sets (b : Bool) (ops : List MOp) :
    regInvariant (List.foldl applyOp (initM b) ops) :=
  regInvariant_foldl ops (initM b)
    ⟨fun e he => absurd he (List.not_mem_nil e),
     fun e he => absurd he (List.not_mem_nil e)⟩

/-! ## C7: the `once` wrapper fires exactly once -/

theorem exec_allEmpty (fuel : Nat) (st : MState) (ts : List Task)
    (hemp : allEmpty st)
    (hts : ∀ h n p, Task.invokeH h n p ∉ ts) :
    (exec fuel st ts).log = st.log ∧ allEmpty (exec fuel st ts) := by
  induction fuel generalizing st ts with
  | zero => exact ⟨rfl, hemp⟩
  | succ fuel ih =>
    cases ts with
    | nil => exact ⟨rfl, hemp⟩
    | cons t ts =>
      have hts' : ∀ h n p, Task.invokeH h n p ∉ ts :=
        fun h n p hm => hts h n p (List.mem_cons_of_mem t hm)
      cases t with
      | run p =>
        cases p with
        | ret => simp only [exec]; exact ih st ts hemp hts'
        | emitSeq n pl rest =>
          simp only [exec]
          refine ih st _ hemp ?_
          intro h n' p' hm
          simp only [List.mem_cons] at hm
          rcases hm with h1 | h1 | h1
          · cases h1
          · cases h1
          · exact hts' _ _ _ h1
      | emitEv n p =>
        simp only [exec]
        cases hv : validateEventName n false with
        | some err => simp only [hv]; exact ih st ts hemp hts'
        | none =>
          simp only [hv]
          refine ih st _ hemp ?_
          intro h n' p' hm
          simp only [List.mem_cons] at hm
          rcases hm with h1 | h1 | h1 | h1
          · cases h1
          · cases h1
          · cases h1
          · exact hts' _ _ _ h1
      | scanExact n p visited =>
        simp only [exec]
        rw [hemp.1]
        exact ih st ts hemp hts'
      | scanStar n p visited =>
        simp only [exec]
        rw [hemp.2.1]
        exact ih st ts hemp hts'
      | scanPats n p visitedP =>
        simp only [exec]
        rw [hemp.2.2]
        exact ih st ts hemp hts'
      | scanPatSet pat n p visited =>
        simp only [exec]
        rw [hemp.2.2]
        exact ih st ts hemp hts'
      | invokeH h n p =>
        exact absurd (List.mem_cons_self _ _) (hts h n p)

/-- C7: a handler registered via `subscribeOnce` on an exact event name `e`
is invoked exactly once, with the first payload: the wrapper unsubscribes
itself before the user handler's body runs, so neither a subsequent
`emit(e, p2)` nor a re-entrant emit performed from within the handler's own
body (the body `prog` is arbitrary, including programs that re-emit `e`)
invokes it again.  Fuel `k + 3` makes the first emission reach the handler;
the second emission's fuel is arbitrary. -/
theorem once_fires_exactly_once (b : Bool) (e : Str) (i : Nat) (prog : HProg)
    (p1 p2 : Nat) (k fuel2 : Nat)
    (hvalid : validateEventName e false = none) :
    (List.foldl applyOp (initM b)
      [MOp.onceOp e i prog, MOp.emitOp (k + 3) e p1, MOp.emitOp fuel2 e p2]).log
      = [(i, e, p1)] := by
  have hperm : validateEventName e true = none := validate_strict_to_perm hvalid
  have hnstar : ¬(e = ['*']) := validate_strict_ne_star hvalid
  have hnc : ¬(e.contains '*' = true) := by
    rw [validate_strict_no_star hvalid]
    simp
  have h0 : applyOp (initM b) (MOp.onceOp e i prog)
      = ⟨[(e, [EHandler.onceWrap i e prog])], [], [], b, []⟩ := by
    simp only [applyOp, onState, hperm]
    rw [if_neg hnstar, if_neg hnc]
    simp [regAdd, regLookup, initM]
  have h1 : exec (k + 3) ⟨[(e, [EHandler.onceWrap i e prog])], [], [], b, []⟩
      [Task.emitEv e p1]
      = exec k ⟨[], [], [], b, [(i, e, p1)]⟩
          [Task.run prog, Task.scanExact e p1 [EHandler.onceWrap i e prog],
           Task.scanStar e p1 [], Task.scanPats e p1 []] := by
    have s1 : exec (k + 3) ⟨[(e, [EHandler.onceWrap i e prog])], [], [], b, []⟩
        [Task.emitEv e p1]
        = exec (k + 2) ⟨[(e, [EHandler.onceWrap i e prog])], [], [], b, []⟩
            [Task.scanExact e p1 [], Task.scanStar e p1 [], Task.scanPats e p1 []] := by
      show exec ((k + 2) + 1) _ _ = _
      simp only [exec, hvalid]
    have s2 : exec (k + 2) ⟨[(e, [EHandler.onceWrap i e prog])], [], [], b, []⟩
        [Task.scanExact e p1 [], Task.scanStar e p1 [], Task.scanPats e p1 []]
        = exec (k + 1) ⟨[(e, [EHandler.onceWrap i e prog])], [], [], b, []⟩
            [Task.invokeH (EHandler.onceWrap i e prog) e p1,
             Task.scanExact e p1 [EHandler.onceWrap i e prog],
             Task.scanStar e p1 [], Task.scanPats e p1 []] := by
      show exec ((k + 1) + 1) _ _ = _
      simp only [exec, regLookup, List.find?, beq_self_eq_true]
      simp
    have s3 : exec (k + 1) ⟨[(e, [EHandler.onceWrap i e prog])], [], [], b, []⟩
        [Task.invokeH (EHandler.onceWrap i e prog) e p1,
         Task.scanExact e p1 [EHandler.onceWrap i e prog],
         Task.scanStar e p1 [], Task.scanPats e p1 []]
        = exec k ⟨[], [], [], b, [(i, e, p1)]⟩
            [Task.run prog, Task.scanExact e p1 [EHandler.onceWrap i e prog],
             Task.scanStar e p1 [], Task.scanPats e p1 []] := by
      simp only [exec, offState, hperm]
      rw [if_neg hnstar, if_neg hnc]
      simp [regRemove, regLookup, List.find?]
    rw [s1, s2, s3]
  have h2 := exec_allEmpty k ⟨[], [], [], b, [(i, e, p1)]⟩
      [Task.run prog, Task.scanExact e p1 [EHandler.onceWrap i e prog],
       Task.scanStar e p1 [], Task.scanPats e p1 []]
      ⟨rfl, rfl, rfl⟩ (by intro h n p hm; simp at hm)
  have hfold : List.foldl applyOp (initM b)
      [MOp.onceOp e i prog, MOp.emitOp (k + 3) e p1, MOp.emitOp fuel2 e p2]
      = applyOp (applyOp (applyOp (initM b) (MOp.onceOp e i prog))
          (MOp.emitOp (k + 3) e p1)) (MOp.emitOp fuel2 e p2) := rfl
  rw [hfold, h0]
  show (exec fuel2 (exec (k + 3) ⟨[(e, [EHandler.onceWrap i e prog])], [], [], b, []⟩
      [Task.emitEv e p1]) [Task.emitEv e p2]).log = [(i, e, p1)]
  rw [h1]
  have h3 := exec_allEmpty fuel2
      (exec k ⟨[], [], [], b, [(i, e, p1)]⟩
        [Task.run prog, Task.scanExact e p1 [EHandler.onceWrap i e prog],
         Task.scanStar e p1 [], Task.scanPats e p1 []])
      [Task.emitEv e p2] h2.2 (by intro h n p hm; simp at hm)
  rw [h3.1, h2.1]

/-- Witness for C7: `once` on `"evt"` with a handler body that re-entrantly
emits `"evt"`, followed by two emissions. -/
theorem once_fires_exactly_once_witness :
    (List.foldl applyOp (initM false)
      [MOp.onceOp "evt".toList 4 (HProg.emitSeq "evt".toList 9 HProg.ret),
       MOp.emitOp (6 + 3) "evt".toList 1, MOp.emitOp 9 "evt".toList 2]).log
      = [(4, "evt".toList, 1)] :=
  once_fires_exactly_once false "evt".toList 4 (HProg.emitSeq "evt".toList 9 HProg.ret)
    1 2 6 9 (by decide)

/-- Witness for C4: the pattern `"user.*"` fires on `"user.created"`. -/
theorem single_wildcard_shapes_witness :
    Call.pattern ("user.".toList ++ ['*']) 3 "user.created".toList 0 ∈
      [Call.pattern ("user.".toList ++ ['*']) 3 "user.created".toList 0] ↔
    jsStartsWith "user.created".toList "user.".toList = true :=
  (single_wildcard_shapes ⟨[], [], [("user.".toList ++ ['*'], [3])], false⟩
      "user.created".toList 0 3).1
    "user.".toList [3] [Call.pattern ("user.".toList ++ ['*']) 3 "user.created".toList 0]
    (by decide) (by decide) (by decide) (by decide) (by decide)

end TSE
